import Mathlib

/-!
Shallow embedding of the aerojump fuzzy-subsequence filter core
(`rplugin/python3/aerojump.py`): the per-line subsequence matcher and
contiguity scorer (`AerojumpLine`), and the filter / navigation / highlight
engine (`Aerojump`).  Python lists indexed by possibly-negative integers are
modelled with `pyGet`; code paths that raise (IndexError / AttributeError)
are modelled by `Option`, `none` meaning the call raises.
-/

namespace AJ

/-- Python list indexing `l[i]`: negative indices address from the end;
out-of-range (including any index into an empty list) raises, i.e. `none`. -/
def pyGet (l : List α) (i : Int) : Option α :=
  if 0 ≤ i then l[i.toNat]?
  else if 0 ≤ i + l.length then l[(i + l.length).toNat]?
  else none

/-- Offset of the first occurrence of `c` in a list (structural helper for
`findCharFrom`). -/
def findIdxFrom (c : Char) : List Char → Option Nat
  | [] => none
  | x :: xs => if x = c then some 0 else (findIdxFrom c xs).map (· + 1)

/-- The scan `for i in range(word_index, len(raw)): if raw_lower[i] == c: ...`
inside `AerojumpLine.__match_from`: first index `j ≥ i` with `L[j] = c`. -/
def findCharFrom (L : List Char) (c : Char) (i : Nat) : Option Nat :=
  (findIdxFrom c (L.drop i)).map (i + ·)

/-- `AerojumpLine.__match_from(matches, pattern, pat_index, word_index)`,
recursing on the pattern suffix from `pat_index`.  Returns the 1-based
positions appended to `matches` when the walk completes the whole pattern
(`True` in the source); `none` when the walk fails (`False`), in which case
the caller discards the partial positions. -/
def matchFrom (L : List Char) : List Char → Nat → Option (List Nat)
  | [], _ => none
  | c :: rest, w =>
    match findCharFrom L c w with
    | none => none
    | some i =>
      -- Final match in the pattern
      if rest = [] then some [i + 1]
      -- More characters to process
      else if i + 1 < L.length then
        match matchFrom L rest (i + 1) with
        | some ps => some ((i + 1) :: ps)
        | none => none
      -- No more characters left to process but pattern is incomplete
      else none

/-- The match-collection loop of `AerojumpLine.filter`: one greedy walk per
index `i` of the lowercase line where `raw_lower[i] == pattern[0]`. -/
def collectMatches (L : List Char) (pattern : List Char) : List (List Nat) :=
  (List.range L.length).filterMap (fun i =>
    if L[i]? = pattern.head? then matchFrom L pattern i else none)

/-- Net effect of the nested `while` loops of `AerojumpLine.__score_matches`
on the `score` counter: `+1` for every adjacent pair of positions differing
by exactly one (Python `m[i+1] - m[i] == 1`). -/
def consecCount : List Nat → Nat
  | a :: b :: rest => (if b - a = 1 then 1 else 0) + consecCount (b :: rest)
  | _ => 0

/-- `score / pat_len` for one match, with `score = 1 + consecCount m`
as accumulated by `__score_matches` ; exact rational instead of float
(`mkRat a b` is the rational `a / b`, see `scoreOf_eq_div`). -/
def scoreOf (m : List Nat) (patLen : Nat) : ℚ :=
  mkRat ((1 + consecCount m : Nat) : Int) patLen

/-- `AerojumpLine`: a line of the buffer.  `raw_lower` is derived from
`raw` (see `rawLower`); `matches` and `scores` are rewritten by `filter`,
`filt_index` by `Aerojump.__get_filtered_lines`. -/
structure AerojumpLine where
  raw : List Char
  num : Int
  -- source field name is `matches`, a Lean keyword
  matches_ : List (List Nat) := []
  scores : List ℚ := []
  filt_index : Nat := 0
deriving DecidableEq

/-- `self.raw_lower = line.lower()` (per-character lowercasing, so the
length always equals `len(raw)`). -/
def AerojumpLine.rawLower (l : AerojumpLine) : List Char :=
  l.raw.map Char.toLower

/-- `AerojumpLine.filter(pattern)`: reset `matches`; empty pattern returns
early (leaving `scores` untouched); otherwise collect the greedy matches and
score them (`__score_matches` sets `self.scores`). -/
def AerojumpLine.filter (l : AerojumpLine) (pattern : List Char) : AerojumpLine :=
  if pattern = [] then { l with matches_ := [] }
  else
    let ms := collectMatches l.rawLower pattern
    { l with matches_ := ms, scores := ms.map (fun m => scoreOf m pattern.length) }

example : collectMatches ['a', 'b', 'c'] ['a', 'c'] = [[1, 3]] := by decide

example : collectMatches ['a', 'a'] ['a'] = [[1], [2]] := by decide

example : (AerojumpLine.filter { raw := ['f', 'B', 'o'], num := 1 } ['f', 'b', 'o']).scores = [1] := by decide

example : (AerojumpLine.filter { raw := ['f', 'x', 'b', 'o'], num := 1 } ['f', 'b', 'o']).scores = [mkRat 2 3] := by decide

/-- The score is the division stated by the spec. -/
theorem scoreOf_eq_div (m : List Nat) (patLen : Nat) :
    scoreOf m patLen = ((1 + consecCount m : Nat) : ℚ) / (patLen : ℚ) := by
  simp [scoreOf, Rat.mkRat_eq_div]

/-- `Highlight` kinds: `'SearchResult'` spans every matched character
(MatchSpan); `'SearchHighlight'` spans the selected match (CursorSpan). -/
inductive HlKind where
  | searchResult
  | searchHighlight
deriving DecidableEq

/-- One highlight tuple `(kind, line.num - 1, i - 1, i)`. -/
structure Highlight where
  kind : HlKind
  line : Int
  colStart : Int
  colEnd : Int
deriving DecidableEq

/-- State of the `Aerojump` engine.  `filtered_lines`/`highlights` are
`Option` because the Python attributes do not exist until first assigned
(reading them before that raises `AttributeError`). -/
structure Aerojump where
  og_top_line : Int × Int
  og_cursor_pos : Int × Int
  num_lines : Int
  filter_string : List Char
  lines : List AerojumpLine
  cursor_line_index : Int
  cursor_match_index : Int
  has_filter_results : Bool
  filtered_lines : Option (List AerojumpLine)
  highlights : Option (List Highlight)
deriving DecidableEq

/-- `Aerojump.__init__`: `lin_nums[i]` is read for every `i < len(lines)`,
so construction raises (`none`) when `lin_nums` is shorter than `lines`;
extra entries of `lin_nums` are silently ignored (`zip` truncates). -/
def mkAerojump (lines : List (List Char)) (lin_nums : List Int)
    (cursor_pos : Int × Int) (top_line : Int × Int) (num_lines : Int) :
    Option Aerojump :=
  if lines.length ≤ lin_nums.length then
    some
      { og_top_line := top_line
        og_cursor_pos := cursor_pos
        num_lines := num_lines
        filter_string := []
        lines := (lines.zip lin_nums).map (fun p => { raw := p.1, num := p.2 })
        cursor_line_index := 0
        cursor_match_index := 0
        has_filter_results := false
        filtered_lines := none
        highlights := none }
  else none

/-- `Aerojump.__get_filtered_lines`: filter every line, keep those with a
non-empty match list, assigning dense `filt_index` values.  Returns the
updated full line list together with the filtered sub-list (the Python
code mutates the line objects in place, so both lists share the updated
values). -/
def getFilteredAux (pattern : List Char) :
    List AerojumpLine → Nat → List AerojumpLine × List AerojumpLine
  | [], _ => ([], [])
  | l :: rest, fi =>
    let l2 := l.filter pattern
    if l2.matches_ = [] then
      let p := getFilteredAux pattern rest fi
      (l2 :: p.1, p.2)
    else
      let l3 := { l2 with filt_index := fi }
      let p := getFilteredAux pattern rest (fi + 1)
      (l3 :: p.1, l3 :: p.2)

/-- `Aerojump.__update_highlights(filtered_lines, cursor_line_index,
cursor_match_index)`: all `'SearchResult'` spans, then one
`'SearchHighlight'` span per position of the selected match.  `none` when
`filtered_lines[cursor_line_index]` or the match lookup raises. -/
def updateHighlights (filtered : List AerojumpLine) (cli cmi : Int) :
    Option (List Highlight) :=
  let base := filtered.flatMap (fun l =>
    l.matches_.flatMap (fun m =>
      m.map (fun i => Highlight.mk .searchResult (l.num - 1) ((i : Int) - 1) i)))
  match pyGet filtered cli with
  | none => none
  | some l =>
    match pyGet l.matches_ cmi with
    | none => none
    | some m =>
      some (base ++ m.map (fun p =>
        Highlight.mk .searchHighlight (l.num - 1) ((p : Int) - 1) p))

/-- `Aerojump.__best_match_index_for(line)`: first index of a
maximal-score match (strict `>` while scanning). -/
def bestMatchIndexFor (l : AerojumpLine) : Nat :=
  (List.range l.matches_.length).foldl
    (fun ret i => if l.scores.getD ret 0 < l.scores.getD i 0 then i else ret) 0

/-- Loop body of the `for l in lines` loop of `Aerojump.__best_cursor_in`:
replace the current best `(line, s_index)` when `l` has a strictly larger
best score, or an equal best score and a strictly smaller distance to the
original cursor line. -/
def bestCursorStep (ogLine : Int) (best : AerojumpLine × Nat)
    (l : AerojumpLine) : AerojumpLine × Nat :=
  let hyp := bestMatchIndexFor l
  if best.1.scores.getD best.2 0 < l.scores.getD hyp 0 ∨
      (l.scores.getD hyp 0 = best.1.scores.getD best.2 0 ∧
        (ogLine - l.num).natAbs < (ogLine - best.1.num).natAbs) then
    (l, hyp)
  else best

/-- `Aerojump.__best_cursor_in(lines)`: seeded with `lines[0]` (raising,
i.e. `none`, on an empty list), then scanned over the whole list. -/
def bestCursorIn (ogLine : Int) (lines : List AerojumpLine) :
    Option (Nat × Nat) :=
  match lines with
  | [] => none
  | l0 :: _ =>
    let r := lines.foldl (bestCursorStep ogLine) (l0, bestMatchIndexFor l0)
    some (r.1.filt_index, r.2)

/-- Body of `Aerojump.__set_cursor_to_best_match` as a function of the
data it reads: restrict to the visible lines
`[og_top_line[0], og_top_line[0] + num_lines]` when any filtered line is
visible, else use all filtered lines. -/
def selectInitial (fl : List AerojumpLine) (ogLine top height : Int) :
    Option (Nat × Nat) :=
  let visible := fl.filter (fun l => top ≤ l.num ∧ l.num ≤ top + height)
  if visible = [] then bestCursorIn ogLine fl
  else bestCursorIn ogLine visible

/-- `Aerojump.__set_cursor_to_best_match` (raises when `filtered_lines`
was never assigned). -/
def setCursorToBestMatch (s : Aerojump) : Option (Nat × Nat) :=
  match s.filtered_lines with
  | none => none
  | some fl => selectInitial fl s.og_cursor_pos.1 s.og_top_line.1 s.num_lines

/-- `Aerojump.apply_filter(filter_string)`: recompute the filtered lines;
when any line matched, reseed the cursor and recompute the highlights
(otherwise those fields keep their previous values). -/
def applyFilter (s : Aerojump) (fs : List Char) : Option Aerojump :=
  let p := getFilteredAux fs s.lines 0
  let s1 := { s with
    filter_string := fs
    lines := p.1
    filtered_lines := some p.2
    has_filter_results := decide (0 < p.2.length) }
  if 0 < p.2.length then
    match setCursorToBestMatch s1 with
    | none => none
    | some ci =>
      let s2 := { s1 with
        cursor_line_index := (ci.1 : Int)
        cursor_match_index := (ci.2 : Int) }
      match updateHighlights p.2 s2.cursor_line_index s2.cursor_match_index with
      | none => none
      | some hl => some { s2 with highlights := some hl }
  else some s1

/-- `Aerojump.get_cursor`: original cursor without filter results, else
`(line.num, matches[cursor_match_index][0] - 1)`. -/
def getCursor (s : Aerojump) : Option (Int × Int) :=
  if s.has_filter_results then
    match s.filtered_lines with
    | none => none
    | some fl =>
      match pyGet fl s.cursor_line_index with
      | none => none
      | some l =>
        match pyGet l.matches_ s.cursor_match_index with
        | none => none
        | some m =>
          match m.head? with
          | none => none
          | some p => some (l.num, (p : Int) - 1)
  else some s.og_cursor_pos

/-- `Aerojump.get_highlights` (raises when never assigned). -/
def getHighlights (s : Aerojump) : Option (List Highlight) :=
  s.highlights

/-- `Aerojump.draw`: every line contributes its raw text (both branches of
the source append `l.raw`); reading `self.highlights` on a fresh engine
raises. -/
def draw (s : Aerojump) :
    Option (List (List Char) × List Highlight × (Int × Int)) :=
  let ls := s.lines.map (fun l => l.raw)
  match s.highlights with
  | none => none
  | some hl =>
    match getCursor s with
    | none => none
    | some c => some (ls, hl, c)

/-- `Aerojump.cursor_line_up`: decrement and clamp at 0, reset the match
index, recompute highlights. -/
def cursorLineUp (s : Aerojump) : Option Aerojump :=
  let i0 := s.cursor_line_index - 1
  let i1 := if i0 < 0 then 0 else i0
  match s.filtered_lines with
  | none => none
  | some fl =>
    match updateHighlights fl i1 0 with
    | none => none
    | some hl =>
      some { s with
        cursor_line_index := i1
        cursor_match_index := 0
        highlights := some hl }

/-- `Aerojump.cursor_line_down`: increment and clamp at
`len(filtered_lines) - 1`, reset the match index, recompute highlights. -/
def cursorLineDown (s : Aerojump) : Option Aerojump :=
  match s.filtered_lines with
  | none => none
  | some fl =>
    let i0 := s.cursor_line_index + 1
    let i1 := if (fl.length : Int) ≤ i0 then (fl.length : Int) - 1 else i0
    match updateHighlights fl i1 0 with
    | none => none
    | some hl =>
      some { s with
        cursor_line_index := i1
        cursor_match_index := 0
        highlights := some hl }

/-- `Aerojump.cursor_match_next`: increment the match index; on overflow
of the current line's match count, perform `cursor_line_down` instead
(which resets the match index to 0). -/
def cursorMatchNext (s : Aerojump) : Option Aerojump :=
  match s.filtered_lines with
  | none => none
  | some fl =>
    let cmi := s.cursor_match_index + 1
    match pyGet fl s.cursor_line_index with
    | none => none
    | some l =>
      if (l.matches_.length : Int) ≤ cmi then cursorLineDown s
      else
        match updateHighlights fl s.cursor_line_index cmi with
        | none => none
        | some hl =>
          some { s with cursor_match_index := cmi, highlights := some hl }

/-- `Aerojump.cursor_match_prev`: decrement the match index; on underflow
perform `cursor_line_up` and then set the match index to the last match of
the new current line — without refreshing the highlights again. -/
def cursorMatchPrev (s : Aerojump) : Option Aerojump :=
  let cmi := s.cursor_match_index - 1
  if cmi < 0 then
    match cursorLineUp s with
    | none => none
    | some s1 =>
      match s1.filtered_lines with
      | none => none
      | some fl =>
        match pyGet fl s1.cursor_line_index with
        | none => none
        | some l =>
          some { s1 with cursor_match_index := (l.matches_.length : Int) - 1 }
  else
    match s.filtered_lines with
    | none => none
    | some fl =>
      match updateHighlights fl s.cursor_line_index cmi with
      | none => none
      | some hl =>
        some { s with cursor_match_index := cmi, highlights := some hl }

/-! ### Lemmas about the matcher -/

theorem findIdxFrom_spec {c : Char} :
    ∀ {xs : List Char} {j : Nat}, findIdxFrom c xs = some j →
      j < xs.length ∧ xs[j]? = some c := by
  intro xs
  induction xs with
  | nil => intro j h; simp [findIdxFrom] at h
  | cons x xs ih =>
    intro j h
    by_cases hx : x = c
    · simp only [findIdxFrom, if_pos hx, Option.some.injEq] at h
      subst hx
      simp [← h]
    · simp only [findIdxFrom, if_neg hx, Option.map_eq_some'] at h
      obtain ⟨j0, hj0, rfl⟩ := h
      obtain ⟨h1, h2⟩ := ih hj0
      constructor
      · simpa using h1
      · simpa using h2

theorem findCharFrom_spec {L : List Char} {c : Char} {w i : Nat}
    (h : findCharFrom L c w = some i) :
    w ≤ i ∧ i < L.length ∧ L[i]? = some c := by
  simp only [findCharFrom, Option.map_eq_some'] at h
  obtain ⟨j, hj, rfl⟩ := h
  obtain ⟨h1, h2⟩ := findIdxFrom_spec hj
  rw [List.length_drop] at h1
  rw [List.getElem?_drop] at h2
  exact ⟨Nat.le_add_right _ _, by omega, h2⟩

theorem matchFrom_spec (L : List Char) :
    ∀ (pat : List Char) (w : Nat) (ps : List Nat), matchFrom L pat w = some ps →
      ps.length = pat.length ∧
      (∀ p ∈ ps, w < p ∧ p ≤ L.length) ∧
      List.Chain' (· < ·) ps ∧
      ∀ k, k < ps.length → (ps[k]?.bind fun p => L[p - 1]?) = pat[k]? := by
  intro pat
  induction pat with
  | nil => intro w ps h; simp [matchFrom] at h
  | cons c rest ih =>
    intro w ps h
    simp only [matchFrom] at h
    split at h
    · exact absurd h (by simp)
    case _ i hfc =>
      obtain ⟨hwi, hiL, hic⟩ := findCharFrom_spec hfc
      by_cases hrest : rest = []
      · rw [if_pos hrest] at h
        subst hrest
        obtain rfl : [i + 1] = ps := by simpa using h
        refine ⟨by simp, ?_, by simp, ?_⟩
        · intro p hp
          obtain rfl : p = i + 1 := by simpa using hp
          omega
        · intro k hk
          obtain rfl : k = 0 := by simpa using hk
          simpa using hic
      · rw [if_neg hrest] at h
        by_cases hlen : i + 1 < L.length
        · rw [if_pos hlen] at h
          split at h
          case _ ps0 hmf =>
            obtain rfl : (i + 1) :: ps0 = ps := by simpa using h
            obtain ⟨hl0, hb0, hc0, hp0⟩ := ih (i + 1) ps0 hmf
            refine ⟨by simp [hl0], ?_, ?_, ?_⟩
            · intro p hp
              rcases List.mem_cons.mp hp with rfl | hp'
              · omega
              · have := hb0 p hp'
                omega
            · refine List.chain'_cons'.mpr ⟨?_, hc0⟩
              intro y hy
              have := hb0 y (List.mem_of_mem_head? hy)
              omega
            · intro k hk
              cases k with
              | zero => simpa using hic
              | succ k => simpa using hp0 k (by simpa using hk)
          case _ hmf => exact absurd h (by simp)
        · rw [if_neg hlen] at h
          simp at h

theorem mem_collectMatches {L pattern : List Char} {m : List Nat}
    (h : m ∈ collectMatches L pattern) :
    ∃ i, matchFrom L pattern i = some m := by
  simp only [collectMatches, List.mem_filterMap] at h
  obtain ⟨i, _, hm⟩ := h
  by_cases hc : L[i]? = pattern.head?
  · rw [if_pos hc] at hm
    exact ⟨i, hm⟩
  · rw [if_neg hc] at hm
    simp at hm

/-- Matches recorded by `AerojumpLine.filter` for a non-empty pattern. -/
theorem filter_matches_spec (l : AerojumpLine) (pattern : List Char)
    (hp : pattern ≠ []) (m : List Nat)
    (hm : m ∈ (l.filter pattern).matches_) :
    m.length = pattern.length ∧
    (∀ p ∈ m, 1 ≤ p ∧ p ≤ l.rawLower.length) ∧
    List.Chain' (· < ·) m ∧
    ∀ k, k < pattern.length →
      (m[k]?.bind fun p => l.rawLower[p - 1]?) = pattern[k]? := by
  rw [AerojumpLine.filter, if_neg hp] at hm
  obtain ⟨i, hi⟩ := mem_collectMatches hm
  obtain ⟨hl, hb, hc, hptw⟩ := matchFrom_spec l.rawLower pattern i m hi
  refine ⟨hl, ?_, hc, ?_⟩
  · intro p hp'
    have := hb p hp'
    omega
  · intro k hk
    exact hptw k (by omega)

/-! ### Lemmas about the scorer -/

theorem consecCount_le : ∀ (a : Nat) (rest : List Nat),
    consecCount (a :: rest) ≤ rest.length := by
  intro a rest
  induction rest generalizing a with
  | nil => simp [consecCount]
  | cons b t ih =>
    have := ih b
    simp only [consecCount, List.length_cons]
    split <;> omega

theorem consecCount_eq_iff : ∀ (a : Nat) (rest : List Nat),
    consecCount (a :: rest) = rest.length ↔
      List.Chain' (fun x y => y = x + 1) (a :: rest) := by
  intro a rest
  induction rest generalizing a with
  | nil => simp [consecCount]
  | cons b t ih =>
    rw [List.chain'_cons, ← ih b]
    have hle := consecCount_le b t
    simp only [consecCount, List.length_cons]
    constructor
    · intro h
      have hba : b - a = 1 := by split at h <;> omega
      constructor
      · omega
      · split at h <;> omega
    · intro ⟨h1, h2⟩
      have : b - a = 1 := by omega
      rw [if_pos this]
      omega

theorem scoreOf_pos {m : List Nat} {patLen : Nat} (h : 0 < patLen) :
    0 < scoreOf m patLen := by
  rw [scoreOf_eq_div]
  apply div_pos
  · exact_mod_cast Nat.succ_le_of_lt (Nat.lt_of_lt_of_le Nat.zero_lt_one (by omega))
  · exact_mod_cast h

/-! ### Claim C1 -/

/-- **C1**: for every line and non-empty query, each match recorded by
`AerojumpLine.filter` has strictly increasing 1-based character positions
(each within the line), exactly `len(query)` of them, and the lowercase
line character at `positions[k] - 1` equals `query[k]` for every `k`. -/
theorem C1_subsequence_soundness (l : AerojumpLine) (pattern : List Char)
    (hp : pattern ≠ []) (m : List Nat)
    (hm : m ∈ (l.filter pattern).matches_) :
    List.Chain' (· < ·) m ∧
    m.length = pattern.length ∧
    (∀ p ∈ m, 1 ≤ p ∧ p ≤ l.rawLower.length) ∧
    ∀ k, k < pattern.length →
      (m[k]?.bind fun p => l.rawLower[p - 1]?) = pattern[k]? := by
  obtain ⟨h1, h2, h3, h4⟩ := filter_matches_spec l pattern hp m hm
  exact ⟨h3, h1, h2, h4⟩

/-- Witness for C1 on the line `"aBc"` and query `"ac"`. -/
theorem C1_subsequence_soundness_witness :
    List.Chain' (· < ·) [1, 3] ∧
    List.length [1, 3] = List.length ['a', 'c'] ∧
    (∀ p ∈ [1, 3], 1 ≤ p ∧
      p ≤ (AerojumpLine.rawLower { raw := ['a', 'B', 'c'], num := 1 }).length) ∧
    ∀ k, k < List.length ['a', 'c'] →
      (([1, 3] : List Nat)[k]?.bind fun p =>
        (AerojumpLine.rawLower { raw := ['a', 'B', 'c'], num := 1 })[p - 1]?) =
        (['a', 'c'] : List Char)[k]? :=
  C1_subsequence_soundness { raw := ['a', 'B', 'c'], num := 1 } ['a', 'c']
    (by decide) [1, 3] (by decide)

/-! ### Claim C2 -/

/-- **C2**: for every match of a non-empty-query filter pass, the recorded
score is `(1 + number of adjacent position pairs differing by exactly 1) /
len(query)`; hence `0 < score ≤ 1`, with `score = 1` exactly when the
positions are fully consecutive. -/
theorem C2_score_bounds (l : AerojumpLine) (pattern : List Char)
    (hp : pattern ≠ []) (m : List Nat)
    (hm : m ∈ (l.filter pattern).matches_) :
    (l.filter pattern).scores =
      (l.filter pattern).matches_.map (fun m0 => scoreOf m0 pattern.length) ∧
    scoreOf m pattern.length =
      ((1 + consecCount m : Nat) : ℚ) / (pattern.length : ℚ) ∧
    0 < scoreOf m pattern.length ∧
    scoreOf m pattern.length ≤ 1 ∧
    (scoreOf m pattern.length = 1 ↔
      List.Chain' (fun x y => y = x + 1) m) := by
  have hplen : 0 < pattern.length := List.length_pos.mpr hp
  obtain ⟨hlen, _, _, _⟩ := filter_matches_spec l pattern hp m hm
  have hm0 : m ≠ [] := by
    intro h
    rw [h] at hlen
    simp at hlen
    omega
  obtain ⟨a, rest, rfl⟩ := List.exists_cons_of_ne_nil hm0
  have hcc := consecCount_le a rest
  have hmlen : rest.length + 1 = pattern.length := by
    simpa using hlen
  refine ⟨?_, scoreOf_eq_div _ _, scoreOf_pos hplen, ?_, ?_⟩
  · rw [AerojumpLine.filter, if_neg hp]
  · rw [scoreOf_eq_div]
    rw [div_le_one (by exact_mod_cast hplen)]
    exact_mod_cast by omega
  · rw [scoreOf_eq_div]
    rw [div_eq_one_iff_eq (by positivity)]
    rw [← consecCount_eq_iff]
    constructor
    · intro h
      have : (1 + consecCount (a :: rest) : Nat) = pattern.length := by
        exact_mod_cast h
      omega
    · intro h
      exact_mod_cast by omega

/-- Witness for C2 on the line `"fxbo"` and query `"fbo"` (score `2/3`). -/
theorem C2_score_bounds_witness :
    (({ raw := ['f', 'x', 'b', 'o'], num := 1 } :
        AerojumpLine).filter ['f', 'b', 'o']).scores =
      (({ raw := ['f', 'x', 'b', 'o'], num := 1 } :
        AerojumpLine).filter ['f', 'b', 'o']).matches_.map
        (fun m0 => scoreOf m0 (List.length ['f', 'b', 'o'])) ∧
    scoreOf [1, 3, 4] (List.length ['f', 'b', 'o']) =
      ((1 + consecCount [1, 3, 4] : Nat) : ℚ) /
        ((List.length ['f', 'b', 'o'] : Nat) : ℚ) ∧
    0 < scoreOf [1, 3, 4] (List.length ['f', 'b', 'o']) ∧
    scoreOf [1, 3, 4] (List.length ['f', 'b', 'o']) ≤ 1 ∧
    (scoreOf [1, 3, 4] (List.length ['f', 'b', 'o']) = 1 ↔
      List.Chain' (fun x y => y = x + 1) [1, 3, 4]) :=
  C2_score_bounds { raw := ['f', 'x', 'b', 'o'], num := 1 } ['f', 'b', 'o']
    (by decide) [1, 3, 4] (by decide)

/-! ### Basic engine lemmas -/

theorem pyGet_nil (i : Int) : pyGet ([] : List α) i = none := by
  simp [pyGet]

theorem pyGet_nonneg {l : List α} {i : Int} (h : 0 ≤ i) :
    pyGet l i = l[i.toNat]? := by
  rw [pyGet, if_pos h]

theorem updateHighlights_nil (cli cmi : Int) :
    updateHighlights [] cli cmi = none := by
  simp [updateHighlights, pyGet_nil]

/-- A tiny concrete engine state used to instantiate theorems. -/
def demoState : Aerojump :=
  { og_top_line := (1, 0)
    og_cursor_pos := (1, 0)
    num_lines := 5
    filter_string := []
    lines := [{ raw := ['a', 'b'], num := 1 }]
    cursor_line_index := 0
    cursor_match_index := 0
    has_filter_results := false
    filtered_lines := none
    highlights := none }

/-! ### Claim C10 -/

/-- **C10**: whenever the most recent `apply_filter` produced zero filtered
lines (any query, in particular a non-empty query matching no line),
`get_cursor` returns the original pre-session cursor unchanged, and so does
the cursor component of any successful `draw`. -/
theorem C10_cursor_fallback (s : Aerojump) (q : List Char) (s2 : Aerojump)
    (h : applyFilter s q = some s2) (hfl : s2.filtered_lines = some []) :
    getCursor s2 = some s.og_cursor_pos ∧
    ∀ r, draw s2 = some r → r.2.2 = s.og_cursor_pos := by
  simp only [applyFilter] at h
  split at h
  case isTrue hpos =>
    split at h
    case h_1 => exact absurd h (by simp)
    case h_2 ci _ =>
      split at h
      case h_1 => exact absurd h (by simp)
      case h_2 hl _ =>
        obtain rfl := Option.some.injEq .. ▸ h
        simp only at hfl
        rw [Option.some.injEq] at hfl
        rw [hfl] at hpos
        simp at hpos
  case isFalse hneg =>
    obtain rfl := Option.some.injEq .. ▸ h
    have hc : getCursor
        { s with
          filter_string := q
          lines := (getFilteredAux q s.lines 0).1
          filtered_lines := some (getFilteredAux q s.lines 0).2
          has_filter_results := decide (0 < (getFilteredAux q s.lines 0).2.length) } =
        some s.og_cursor_pos := by
      rw [getCursor]
      simp [hneg]
    refine ⟨hc, ?_⟩
    intro r hr
    rw [draw] at hr
    simp only at hr
    split at hr
    · exact absurd hr (by simp)
    · rw [hc] at hr
      simp only [Option.some.injEq] at hr
      rw [← hr]

/-- Witness for C10: the query `"z"` matches nothing in `"ab"`. -/
theorem C10_cursor_fallback_witness :
    getCursor { demoState with
      filter_string := ['z'], filtered_lines := some [] } =
      some demoState.og_cursor_pos ∧
    ∀ r, draw { demoState with
      filter_string := ['z'], filtered_lines := some [] } = some r →
        r.2.2 = demoState.og_cursor_pos :=
  C10_cursor_fallback demoState ['z']
    { demoState with filter_string := ['z'], filtered_lines := some [] }
    (by decide) (by decide)

/-! ### Claim C9 -/

/-- C9 as stated is false: constructing with MORE line numbers than lines
is accepted silently (the extra numbers are ignored), not rejected. -/
theorem C9_counterexample :
    (mkAerojump [['a']] [1, 2] (1, 0) (1, 0) 10).isSome = true := by
  decide

/-- **C9 (amended)**: construction raises exactly when there are more
lines than line numbers (surplus line numbers are silently ignored), and
every navigation command raises when the filtered-line sequence is empty
(or was never computed). -/
theorem C9_amended :
    (∀ (lines : List (List Char)) (nums : List Int) cp tl nl,
      nums.length < lines.length → mkAerojump lines nums cp tl nl = none) ∧
    (∀ (lines : List (List Char)) (nums : List Int) cp tl nl,
      lines.length ≤ nums.length →
        (mkAerojump lines nums cp tl nl).isSome = true) ∧
    ∀ s : Aerojump,
      (s.filtered_lines = none ∨ s.filtered_lines = some []) →
        cursorLineUp s = none ∧ cursorLineDown s = none ∧
        cursorMatchNext s = none ∧ cursorMatchPrev s = none := by
  refine ⟨?_, ?_, ?_⟩
  · intro lines nums cp tl nl h
    rw [mkAerojump, if_neg (by omega)]
  · intro lines nums cp tl nl h
    rw [mkAerojump, if_pos h]
    rfl
  · intro s h
    rcases h with h | h
    · refine ⟨?_, ?_, ?_, ?_⟩
      · rw [cursorLineUp, h]
      · rw [cursorLineDown, h]
      · rw [cursorMatchNext, h]
      · rw [cursorMatchPrev]
        split
        · rw [cursorLineUp, h]
        · rw [h]
    · refine ⟨?_, ?_, ?_, ?_⟩
      · rw [cursorLineUp, h]
        simp [updateHighlights_nil]
      · rw [cursorLineDown, h]
        simp [updateHighlights_nil]
      · rw [cursorMatchNext, h]
        simp [pyGet_nil]
      · rw [cursorMatchPrev]
        split
        · rw [cursorLineUp, h]
          simp [updateHighlights_nil]
        · rw [h]
          simp [updateHighlights_nil]

/-- Witness for C9 (amended), at a one-line/zero-numbers construction and
at `demoState` (whose filtered-line sequence was never computed). -/
theorem C9_amended_witness :
    mkAerojump [['a']] [] (1, 0) (1, 0) 10 = none ∧
    (mkAerojump [['a']] [1] (1, 0) (1, 0) 10).isSome = true ∧
    (cursorLineUp demoState = none ∧ cursorLineDown demoState = none ∧
      cursorMatchNext demoState = none ∧ cursorMatchPrev demoState = none) :=
  ⟨C9_amended.1 [['a']] [] (1, 0) (1, 0) 10 (by decide),
   C9_amended.2.1 [['a']] [1] (1, 0) (1, 0) 10 (by decide),
   C9_amended.2.2 demoState (Or.inl (by decide))⟩

/-! ### Field characterization of `applyFilter` -/

/-- What one `apply_filter` call does to every observable field. -/
theorem applyFilter_fields (s : Aerojump) (q : List Char) (s2 : Aerojump)
    (h : applyFilter s q = some s2) :
    s2.lines = (getFilteredAux q s.lines 0).1 ∧
    s2.filtered_lines = some (getFilteredAux q s.lines 0).2 ∧
    s2.filter_string = q ∧
    s2.og_top_line = s.og_top_line ∧
    s2.og_cursor_pos = s.og_cursor_pos ∧
    s2.num_lines = s.num_lines ∧
    s2.has_filter_results = decide (0 < (getFilteredAux q s.lines 0).2.length) ∧
    (0 < (getFilteredAux q s.lines 0).2.length →
      ∃ ci, selectInitial (getFilteredAux q s.lines 0).2
          s.og_cursor_pos.1 s.og_top_line.1 s.num_lines = some ci ∧
        s2.cursor_line_index = (ci.1 : Int) ∧
        s2.cursor_match_index = (ci.2 : Int) ∧
        ∃ hl, updateHighlights (getFilteredAux q s.lines 0).2
            (ci.1 : Int) (ci.2 : Int) = some hl ∧
          s2.highlights = some hl) ∧
    (¬ 0 < (getFilteredAux q s.lines 0).2.length →
      s2.cursor_line_index = s.cursor_line_index ∧
      s2.cursor_match_index = s.cursor_match_index ∧
      s2.highlights = s.highlights) := by
  simp only [applyFilter] at h
  split at h
  case isTrue hpos =>
    split at h
    case h_1 => exact absurd h (by simp)
    case h_2 ci hci =>
      split at h
      case h_1 => exact absurd h (by simp)
      case h_2 hl hhl =>
        obtain rfl := Option.some.injEq .. ▸ h
        simp only [setCursorToBestMatch] at hci
        refine ⟨rfl, rfl, rfl, rfl, rfl, rfl, rfl, ?_, ?_⟩
        · intro _
          exact ⟨ci, hci, rfl, rfl, hl, hhl, rfl⟩
        · intro hneg
          exact absurd hpos hneg
  case isFalse hneg =>
    obtain rfl := Option.some.injEq .. ▸ h
    refine ⟨rfl, rfl, rfl, rfl, rfl, rfl, rfl, ?_, ?_⟩
    · intro hpos
      exact absurd hpos hneg
    · intro _
      exact ⟨rfl, rfl, rfl⟩

/-! ### Claim C7 -/

theorem getFilteredAux_nil_pattern : ∀ (ls : List AerojumpLine) (fi : Nat),
    (getFilteredAux [] ls fi).2 = [] ∧
    (getFilteredAux [] ls fi).1.map (fun l => l.raw) =
      ls.map (fun l => l.raw) := by
  intro ls
  induction ls with
  | nil => intro fi; simp [getFilteredAux]
  | cons l rest ih =>
    intro fi
    have hf : (l.filter []).matches_ = [] := by
      rw [AerojumpLine.filter, if_pos rfl]
    have hraw : (l.filter []).raw = l.raw := by
      rw [AerojumpLine.filter, if_pos rfl]
    constructor
    · simp [getFilteredAux, hf, (ih fi).1]
    · simp [getFilteredAux, hf, hraw, (ih fi).2]

/-- A fresh engine (highlights never assigned), filtered with the empty
query: `apply_filter` succeeds, but `draw()` raises (`none`) instead of
returning the original lines and cursor, because `self.highlights` does
not exist yet.  This refutes C10's source sentence as universally stated. -/
def c7fresh : Option Aerojump :=
  (mkAerojump [['a', 'b']] [1] (1, 0) (1, 0) 5).bind
    (fun s => applyFilter s [])

/-- C7 as stated is false on a fresh engine: after `applyFilter ""`,
`draw()` raises (returns `none`) rather than returning anything. -/
theorem C7_counterexample : c7fresh.map draw = some none := by decide

/-- **C7 (amended)**: after `applyFilter ""`, provided the engine's
highlight attribute already exists (some earlier filter pass assigned it),
`draw()` returns the untouched original lines and the original pre-session
cursor (together with the stale highlight list). -/
theorem C7_amended (s : Aerojump) (hl : List Highlight)
    (hh : s.highlights = some hl) :
    ∃ s2, applyFilter s [] = some s2 ∧
      draw s2 = some (s.lines.map (fun l => l.raw), hl, s.og_cursor_pos) := by
  have hA := getFilteredAux_nil_pattern s.lines 0
  refine ⟨{ s with
    filter_string := []
    lines := (getFilteredAux [] s.lines 0).1
    filtered_lines := some (getFilteredAux [] s.lines 0).2
    has_filter_results :=
      decide (0 < (getFilteredAux [] s.lines 0).2.length) }, ?_, ?_⟩
  · rw [applyFilter]
    simp only [hA.1, List.length_nil, if_neg (lt_irrefl 0)]
  · have hc : getCursor { s with
        filter_string := []
        lines := (getFilteredAux [] s.lines 0).1
        filtered_lines := some (getFilteredAux [] s.lines 0).2
        has_filter_results :=
          decide (0 < (getFilteredAux [] s.lines 0).2.length) } =
        some s.og_cursor_pos := by
      rw [getCursor]
      simp [hA.1]
    rw [hh] at hc
    rw [draw]
    simp only [hh, hA.2, hc]

/-- Witness for C7 (amended) at `demoState` with an empty highlight list
already present. -/
theorem C7_amended_witness :
    ∃ s2, applyFilter { demoState with highlights := some [] } [] = some s2 ∧
      draw s2 = some
        (({ demoState with highlights := some [] } : Aerojump).lines.map
          (fun l => l.raw), [],
          ({ demoState with highlights := some [] } : Aerojump).og_cursor_pos) :=
  C7_amended { demoState with highlights := some [] } [] rfl

/-! ### Claim C8 -/

/-- The engine after `applyFilter demoState "ab"`. -/
def c8state1 : Option Aerojump := applyFilter demoState ['a', 'b']

/-- ... followed by `applyFilter "z"`, which matches nothing. -/
def c8state2 : Option Aerojump := c8state1.bind (fun s => applyFilter s ['z'])

/-- C8 as stated is false: after `applyFilter "z"` (zero filtered lines),
the highlight list of the earlier query `"ab"` is still observable via
`get_highlights`. -/
theorem C8_counterexample :
    c8state2.map (fun s => (s.filtered_lines, getHighlights s)) =
      some (some [],
        some [⟨.searchResult, 0, 0, 1⟩, ⟨.searchResult, 0, 1, 2⟩,
          ⟨.searchHighlight, 0, 0, 1⟩, ⟨.searchHighlight, 0, 1, 2⟩]) := by
  decide

/-- **C8 (amended)**: an `apply_filter` pass that matches at least one line
fully replaces the filtered lines, cursor indices and highlights with
values computed solely from the construction data and the new query (any
two states agreeing on those produce identical readable state); a pass
with zero matches replaces the filtered-line set (now empty) and
`get_cursor` falls back to the original cursor, but the previous
highlight list is retained and stays observable. -/
theorem C8_amended :
    (∀ s t : Aerojump, ∀ q s2 t2,
      s.lines = t.lines → s.og_top_line = t.og_top_line →
      s.og_cursor_pos = t.og_cursor_pos → s.num_lines = t.num_lines →
      applyFilter s q = some s2 → applyFilter t q = some t2 →
      s2.lines = t2.lines ∧ s2.filtered_lines = t2.filtered_lines ∧
      s2.filter_string = t2.filter_string ∧
      s2.has_filter_results = t2.has_filter_results ∧
      (s2.has_filter_results = true →
        s2.cursor_line_index = t2.cursor_line_index ∧
        s2.cursor_match_index = t2.cursor_match_index ∧
        s2.highlights = t2.highlights)) ∧
    ∀ s : Aerojump, ∀ q s2, applyFilter s q = some s2 →
      s2.filtered_lines = some [] →
      s2.highlights = s.highlights ∧ getCursor s2 = some s.og_cursor_pos := by
  constructor
  · intro s t q s2 t2 hlines htop hcur hnum hs ht
    obtain ⟨a1, a2, a3, a4, a5, a6, a7, a8, a9⟩ := applyFilter_fields s q s2 hs
    obtain ⟨b1, b2, b3, b4, b5, b6, b7, b8, b9⟩ := applyFilter_fields t q t2 ht
    rw [← hlines] at b1 b2 b7 b8 b9
    refine ⟨by rw [a1, b1], by rw [a2, b2], by rw [a3, b3],
      by rw [a7, b7], ?_⟩
    intro hres
    have hpos : 0 < (getFilteredAux q s.lines 0).2.length := by
      rw [a7] at hres
      simpa using hres
    obtain ⟨ci, hci, ac1, ac2, hl, hhl, ah⟩ := a8 hpos
    obtain ⟨ci2, hci2, bc1, bc2, hl2, hhl2, bh⟩ := b8 hpos
    rw [← hcur, ← htop, ← hnum] at hci2
    rw [hci] at hci2
    obtain rfl := Option.some.injEq .. ▸ hci2.symm
    rw [hhl] at hhl2
    obtain rfl := Option.some.injEq .. ▸ hhl2
    exact ⟨by rw [ac1, bc1], by rw [ac2, bc2], by rw [ah, bh]⟩
  · intro s q s2 h hempty
    obtain ⟨a1, a2, a3, a4, a5, a6, a7, a8, a9⟩ := applyFilter_fields s q s2 h
    rw [a2, Option.some.injEq] at hempty
    have hzero : ¬ 0 < (getFilteredAux q s.lines 0).2.length := by
      rw [hempty]
      simp
    obtain ⟨_, _, hh⟩ := a9 hzero
    refine ⟨hh, ?_⟩
    rw [getCursor]
    have : s2.has_filter_results = false := by
      rw [a7, hempty]
      simp
    rw [this]
    simp [a5]

/-- The single line of `demoState` after filtering with `"a"`. -/
def demoLineA : AerojumpLine :=
  { raw := ['a', 'b'], num := 1, matches_ := [[1]], scores := [1], filt_index := 0 }

/-- `applyFilter demoState "a"`, written out. -/
def demoAfterA : Aerojump :=
  { demoState with
    filter_string := ['a']
    lines := [demoLineA]
    filtered_lines := some [demoLineA]
    cursor_line_index := 0
    cursor_match_index := 0
    has_filter_results := true
    highlights := some [⟨.searchResult, 0, 0, 1⟩, ⟨.searchHighlight, 0, 0, 1⟩] }

/-- `applyFilter demoState "z"`, written out. -/
def demoAfterZ : Aerojump :=
  { demoState with filter_string := ['z'], filtered_lines := some [] }

/-- Witness for C8 (amended): both parts at `demoState`, queries `"a"` and
`"z"`. -/
theorem C8_amended_witness :
    (demoAfterA.lines = demoAfterA.lines ∧
      demoAfterA.filtered_lines = demoAfterA.filtered_lines ∧
      demoAfterA.filter_string = demoAfterA.filter_string ∧
      demoAfterA.has_filter_results = demoAfterA.has_filter_results ∧
      (demoAfterA.has_filter_results = true →
        demoAfterA.cursor_line_index = demoAfterA.cursor_line_index ∧
        demoAfterA.cursor_match_index = demoAfterA.cursor_match_index ∧
        demoAfterA.highlights = demoAfterA.highlights)) ∧
    demoAfterZ.highlights = demoState.highlights ∧
    getCursor demoAfterZ = some demoState.og_cursor_pos :=
  ⟨C8_amended.1 demoState demoState ['a'] demoAfterA demoAfterA
      rfl rfl rfl rfl (by decide) (by decide),
   C8_amended.2 demoState ['z'] demoAfterZ (by decide) (by decide)⟩

/-! ### Navigation state machine -/

theorem pyGet_mem {l : List α} {i : Int} {x : α} (h : pyGet l i = some x) :
    x ∈ l := by
  rw [pyGet] at h
  split at h
  · exact List.getElem?_mem h
  · split at h
    · exact List.getElem?_mem h
    · exact absurd h (by simp)

theorem pyGet_eq_some_of_bounds {l : List α} {i : Int} (h0 : 0 ≤ i)
    (h1 : i < l.length) : ∃ x, pyGet l i = some x ∧ l[i.toNat]? = some x := by
  rw [pyGet, if_pos h0]
  have : i.toNat < l.length := by omega
  exact ⟨l[i.toNat], by simp [this], by simp [this]⟩

theorem pyGet_bounds {l : List α} {i : Int} {x : α} (h0 : 0 ≤ i)
    (h : pyGet l i = some x) : i < l.length := by
  rw [pyGet, if_pos h0] at h
  rw [List.getElem?_eq_some] at h
  obtain ⟨hlt, _⟩ := h
  omega

/-- A navigation-ready state: a non-empty filtered-line sequence, every
filtered line with at least one match, and both cursor indices in range
(the invariant of §4.5 of the spec). -/
def goodState (s : Aerojump) : Prop :=
  ∃ fl L, s.filtered_lines = some fl ∧
    (∀ l ∈ fl, l.matches_ ≠ []) ∧
    0 ≤ s.cursor_line_index ∧ s.cursor_line_index < fl.length ∧
    pyGet fl s.cursor_line_index = some L ∧
    0 ≤ s.cursor_match_index ∧ s.cursor_match_index < L.matches_.length

theorem updateHighlights_some {fl : List AerojumpLine} {cli cmi : Int}
    {L : AerojumpLine} (hL : pyGet fl cli = some L) (h2 : 0 ≤ cmi)
    (h3 : cmi < L.matches_.length) :
    ∃ hl, updateHighlights fl cli cmi = some hl := by
  obtain ⟨m, hm, _⟩ := pyGet_eq_some_of_bounds h2 h3
  refine ⟨(fl.flatMap fun l =>
      l.matches_.flatMap fun m0 =>
        m0.map (fun i =>
          Highlight.mk .searchResult (l.num - 1) ((i : Int) - 1) i)) ++
      m.map (fun p =>
        Highlight.mk .searchHighlight (L.num - 1) ((p : Int) - 1) p), ?_⟩
  simp only [updateHighlights, hL, hm]

theorem cursorLineUp_good {s : Aerojump} (h : goodState s) :
    ∃ s2, cursorLineUp s = some s2 ∧ goodState s2 ∧
      s2.filtered_lines = s.filtered_lines ∧
      s2.cursor_line_index =
        (if s.cursor_line_index - 1 < 0 then 0 else s.cursor_line_index - 1) ∧
      s2.cursor_match_index = 0 := by
  obtain ⟨fl, L, hfl, hne, hc0, hc1, hL, _, _⟩ := h
  set i1 : Int :=
    if s.cursor_line_index - 1 < 0 then 0 else s.cursor_line_index - 1 with hi1
  have hb0 : 0 ≤ i1 := by rw [hi1]; split <;> omega
  have hb1 : i1 < fl.length := by rw [hi1]; split <;> omega
  obtain ⟨L2, hL2, _⟩ := pyGet_eq_some_of_bounds hb0 hb1
  have hL2m : L2.matches_ ≠ [] := hne L2 (pyGet_mem hL2)
  have hL2len : (0 : Int) < L2.matches_.length := by
    have : L2.matches_.length ≠ 0 := by
      intro hz
      exact hL2m (List.eq_nil_of_length_eq_zero hz)
    omega
  obtain ⟨hl, hhl⟩ := updateHighlights_some hL2 le_rfl hL2len
  refine ⟨{ s with
      cursor_line_index := i1
      cursor_match_index := 0
      highlights := some hl }, ?_, ?_, rfl, hi1, rfl⟩
  · simp only [cursorLineUp, hfl, ← hi1, hhl]
  · exact ⟨fl, L2, hfl, hne, hb0, hb1, hL2, le_rfl, hL2len⟩

theorem cursorLineDown_good {s : Aerojump} (h : goodState s) :
    ∃ s2, cursorLineDown s = some s2 ∧ goodState s2 ∧
      s2.filtered_lines = s.filtered_lines ∧
      (∀ fl0, s.filtered_lines = some fl0 →
        s2.cursor_line_index =
          (if (fl0.length : Int) ≤ s.cursor_line_index + 1
            then (fl0.length : Int) - 1 else s.cursor_line_index + 1)) ∧
      s2.cursor_match_index = 0 := by
  obtain ⟨fl, L, hfl, hne, hc0, hc1, hL, _, _⟩ := h
  set i1 : Int :=
    if (fl.length : Int) ≤ s.cursor_line_index + 1
      then (fl.length : Int) - 1 else s.cursor_line_index + 1 with hi1
  have hb0 : 0 ≤ i1 := by rw [hi1]; split <;> omega
  have hb1 : i1 < fl.length := by rw [hi1]; split <;> omega
  obtain ⟨L2, hL2, _⟩ := pyGet_eq_some_of_bounds hb0 hb1
  have hL2m : L2.matches_ ≠ [] := hne L2 (pyGet_mem hL2)
  have hL2len : (0 : Int) < L2.matches_.length := by
    have : L2.matches_.length ≠ 0 := by
      intro hz
      exact hL2m (List.eq_nil_of_length_eq_zero hz)
    omega
  obtain ⟨hl, hhl⟩ := updateHighlights_some hL2 le_rfl hL2len
  refine ⟨{ s with
      cursor_line_index := i1
      cursor_match_index := 0
      highlights := some hl }, ?_, ?_, rfl, ?_, rfl⟩
  · simp only [cursorLineDown, hfl, ← hi1, hhl]
  · exact ⟨fl, L2, hfl, hne, hb0, hb1, hL2, le_rfl, hL2len⟩
  · intro fl0 hfl0
    rw [hfl] at hfl0
    obtain rfl := Option.some.injEq .. ▸ hfl0
    exact hi1

theorem cursorMatchNext_good {s : Aerojump} (h : goodState s) :
    ∃ s2, cursorMatchNext s = some s2 ∧ goodState s2 := by
  obtain ⟨fl, L, hfl, hne, hc0, hc1, hL, hm0, hm1⟩ := h
  by_cases hov : (L.matches_.length : Int) ≤ s.cursor_match_index + 1
  · obtain ⟨s2, hs2, hg, _⟩ :=
      cursorLineDown_good ⟨fl, L, hfl, hne, hc0, hc1, hL, hm0, hm1⟩
    refine ⟨s2, ?_, hg⟩
    simp only [cursorMatchNext, hfl, hL, if_pos hov]
    exact hs2
  · obtain ⟨hl, hhl⟩ := updateHighlights_some hL (by omega)
      (by omega : s.cursor_match_index + 1 < (L.matches_.length : Int))
    refine ⟨{ s with
        cursor_match_index := s.cursor_match_index + 1
        highlights := some hl }, ?_, ?_⟩
    · simp only [cursorMatchNext, hfl, hL, if_neg hov, hhl]
    · exact ⟨fl, L, hfl, hne, hc0, hc1, hL,
        show (0 : Int) ≤ s.cursor_match_index + 1 by omega,
        show s.cursor_match_index + 1 < (L.matches_.length : Int) by omega⟩

theorem cursorMatchPrev_good {s : Aerojump} (h : goodState s) :
    ∃ s2, cursorMatchPrev s = some s2 ∧ goodState s2 := by
  obtain ⟨fl, L, hfl, hne, hc0, hc1, hL, hm0, hm1⟩ := h
  by_cases hun : s.cursor_match_index - 1 < 0
  · obtain ⟨s1, hs1, hg1, hfl1, hcl1, hcm1⟩ :=
      cursorLineUp_good ⟨fl, L, hfl, hne, hc0, hc1, hL, hm0, hm1⟩
    obtain ⟨fl2, L2, hfl2, hne2, hd0, hd1, hL2, he0, he1⟩ := hg1
    have hL2len : (0 : Int) < L2.matches_.length := by
      have : L2.matches_ ≠ [] := hne2 L2 (pyGet_mem hL2)
      have : L2.matches_.length ≠ 0 := by
        intro hz
        exact this (List.eq_nil_of_length_eq_zero hz)
      omega
    refine ⟨{ s1 with
      cursor_match_index := (L2.matches_.length : Int) - 1 }, ?_, ?_⟩
    · simp only [cursorMatchPrev, if_pos hun, hs1, hfl2, hL2]
    · exact ⟨fl2, L2, hfl2, hne2, hd0, hd1, hL2,
        show (0 : Int) ≤ (L2.matches_.length : Int) - 1 by omega,
        show (L2.matches_.length : Int) - 1 < (L2.matches_.length : Int) by
          omega⟩
  · obtain ⟨hl, hhl⟩ := updateHighlights_some hL (by omega)
      (by omega : s.cursor_match_index - 1 < (L.matches_.length : Int))
    refine ⟨{ s with
        cursor_match_index := s.cursor_match_index - 1
        highlights := some hl }, ?_, ?_⟩
    · simp only [cursorMatchPrev, if_neg hun, hfl, hhl]
    · exact ⟨fl, L, hfl, hne, hc0, hc1, hL,
        show (0 : Int) ≤ s.cursor_match_index - 1 by omega,
        show s.cursor_match_index - 1 < (L.matches_.length : Int) by omega⟩

/-- Repeated navigation, propagating a raised exception. -/
def iterateOpt (f : Aerojump → Option Aerojump) :
    Nat → Aerojump → Option Aerojump
  | 0, s => some s
  | n + 1, s =>
    match f s with
    | none => none
    | some s2 => iterateOpt f n s2

theorem iterate_up_zero : ∀ (n : Nat) (s : Aerojump)
    (fl : List AerojumpLine), goodState s → s.filtered_lines = some fl →
    s.cursor_line_index ≤ n →
    ∃ s2, iterateOpt cursorLineUp n s = some s2 ∧ goodState s2 ∧
      s2.filtered_lines = some fl ∧ s2.cursor_line_index = 0 := by
  intro n
  induction n with
  | zero =>
    intro s fl hg hfl hle
    have hc0 : 0 ≤ s.cursor_line_index := by
      obtain ⟨_, _, _, _, hc0, _⟩ := hg
      exact hc0
    exact ⟨s, rfl, hg, hfl, by omega⟩
  | succ n ih =>
    intro s fl hg hfl hle
    obtain ⟨s1, hs1, hg1, hfl1, hcl1, _⟩ := cursorLineUp_good hg
    have hfl1a : s1.filtered_lines = some fl := hfl1.trans hfl
    have hle1 : s1.cursor_line_index ≤ n := by
      rw [hcl1]
      split <;> omega
    obtain ⟨s2, hs2, hg2, hfl2, hz⟩ := ih s1 fl hg1 hfl1a hle1
    refine ⟨s2, ?_, hg2, hfl2, hz⟩
    simp only [iterateOpt, hs1]
    exact hs2

theorem iterate_down_last : ∀ (n : Nat) (s : Aerojump)
    (fl : List AerojumpLine), goodState s → s.filtered_lines = some fl →
    (fl.length : Int) - 1 - s.cursor_line_index ≤ n →
    ∃ s2, iterateOpt cursorLineDown n s = some s2 ∧ goodState s2 ∧
      s2.filtered_lines = some fl ∧
      s2.cursor_line_index = (fl.length : Int) - 1 := by
  intro n
  induction n with
  | zero =>
    intro s fl hg hfl hle
    have hb : 0 ≤ s.cursor_line_index ∧
        s.cursor_line_index < (fl.length : Int) := by
      obtain ⟨fl0, _, hfl0, _, hc0, hc1, _⟩ := hg
      rw [hfl] at hfl0
      obtain rfl := Option.some.injEq .. ▸ hfl0
      exact ⟨hc0, hc1⟩
    exact ⟨s, rfl, hg, hfl, by omega⟩
  | succ n ih =>
    intro s fl hg hfl hle
    obtain ⟨s1, hs1, hg1, hfl1, hcl1, _⟩ := cursorLineDown_good hg
    have hfl1a : s1.filtered_lines = some fl := hfl1.trans hfl
    have hle1 : (fl.length : Int) - 1 - s1.cursor_line_index ≤ n := by
      rw [hcl1 fl hfl]
      split <;> omega
    obtain ⟨s2, hs2, hg2, hfl2, hz⟩ := ih s1 fl hg1 hfl1a hle1
    refine ⟨s2, ?_, hg2, hfl2, hz⟩
    simp only [iterateOpt, hs1]
    exact hs2

/-! ### Claim C6 -/

/-- **C6**: from any navigation-ready state with `N` filtered lines, every
navigation command succeeds (never raises) and preserves the index
invariant; `N` repetitions of `lineUp` land on `filterIndex = 0` and `N`
repetitions of `lineDown` land on `filterIndex = N - 1`. -/
theorem C6_navigation_clamping :
    (∀ s : Aerojump, goodState s →
      (∃ s2, cursorLineUp s = some s2 ∧ goodState s2) ∧
      (∃ s2, cursorLineDown s = some s2 ∧ goodState s2) ∧
      (∃ s2, cursorMatchNext s = some s2 ∧ goodState s2) ∧
      (∃ s2, cursorMatchPrev s = some s2 ∧ goodState s2)) ∧
    ∀ s : Aerojump, ∀ fl, goodState s → s.filtered_lines = some fl →
      (∃ s2, iterateOpt cursorLineUp fl.length s = some s2 ∧
        s2.cursor_line_index = 0 ∧ goodState s2) ∧
      (∃ s2, iterateOpt cursorLineDown fl.length s = some s2 ∧
        s2.cursor_line_index = (fl.length : Int) - 1 ∧ goodState s2) := by
  constructor
  · intro s hg
    obtain ⟨s2, h1, h2, _⟩ := cursorLineUp_good hg
    obtain ⟨t2, h3, h4, _⟩ := cursorLineDown_good hg
    obtain ⟨u2, h5, h6⟩ := cursorMatchNext_good hg
    obtain ⟨v2, h7, h8⟩ := cursorMatchPrev_good hg
    exact ⟨⟨s2, h1, h2⟩, ⟨t2, h3, h4⟩, ⟨u2, h5, h6⟩, ⟨v2, h7, h8⟩⟩
  · intro s fl hg hfl
    have hb : s.cursor_line_index ≤ fl.length ∧
        (fl.length : Int) - 1 - s.cursor_line_index ≤ fl.length := by
      obtain ⟨fl0, _, hfl0, _, hc0, hc1, _⟩ := hg
      rw [hfl] at hfl0
      obtain rfl := Option.some.injEq .. ▸ hfl0
      omega
    obtain ⟨s2, ha, hg2, _, hz⟩ :=
      iterate_up_zero fl.length s fl hg hfl hb.1
    obtain ⟨t2, hc, hg3, _, hw⟩ :=
      iterate_down_last fl.length s fl hg hfl hb.2
    exact ⟨⟨s2, ha, hz, hg2⟩, ⟨t2, hc, hw, hg3⟩⟩

/-- `demoAfterA` is navigation-ready. -/
theorem demoAfterA_good : goodState demoAfterA :=
  ⟨[demoLineA], demoLineA, rfl, by decide, by decide, by decide, by decide,
    by decide, by decide⟩

/-- Witness for C6 at the one-line state `demoAfterA`. -/
theorem C6_navigation_clamping_witness :
    ((∃ s2, cursorLineUp demoAfterA = some s2 ∧ goodState s2) ∧
      (∃ s2, cursorLineDown demoAfterA = some s2 ∧ goodState s2) ∧
      (∃ s2, cursorMatchNext demoAfterA = some s2 ∧ goodState s2) ∧
      (∃ s2, cursorMatchPrev demoAfterA = some s2 ∧ goodState s2)) ∧
    (∃ s2, iterateOpt cursorLineUp (List.length [demoLineA]) demoAfterA =
        some s2 ∧ s2.cursor_line_index = 0 ∧ goodState s2) ∧
    ∃ s2, iterateOpt cursorLineDown (List.length [demoLineA]) demoAfterA =
        some s2 ∧
      s2.cursor_line_index = ((List.length [demoLineA] : Nat) : Int) - 1 ∧
      goodState s2 :=
  ⟨C6_navigation_clamping.1 demoAfterA demoAfterA_good,
   C6_navigation_clamping.2 demoAfterA [demoLineA] demoAfterA_good rfl⟩

/-! ### Claim C5 -/

/-- **C5**: when incrementing the match index would overflow the current
line's match count, `matchNext` performs `lineDown` instead; with a single
filtered line of two matches and `matchIndex = 1`, `matchNext` stays on
the line and wraps the match index to 0 (no error). -/
theorem C5_match_next_overflow :
    (∀ s : Aerojump, ∀ fl L, s.filtered_lines = some fl →
      pyGet fl s.cursor_line_index = some L →
      (L.matches_.length : Int) ≤ s.cursor_match_index + 1 →
      cursorMatchNext s = cursorLineDown s) ∧
    ∀ s : Aerojump, ∀ L, s.filtered_lines = some [L] →
      s.cursor_line_index = 0 → s.cursor_match_index = 1 →
      L.matches_.length = 2 →
      ∃ s2, cursorMatchNext s = some s2 ∧
        s2.cursor_line_index = 0 ∧ s2.cursor_match_index = 0 := by
  constructor
  · intro s fl L hfl hL hov
    simp only [cursorMatchNext, hfl, hL, if_pos hov]
  · intro s L hfl hcl hcm hm2
    have hLmem : pyGet [L] s.cursor_line_index = some L := by
      rw [hcl]
      rw [pyGet, if_pos le_rfl]
      simp
    have hg : goodState s := by
      refine ⟨[L], L, hfl, ?_, by omega, by simp [hcl], hLmem,
        by omega, by omega⟩
      intro l hl
      obtain rfl : l = L := by simpa using hl
      intro hz
      rw [hz] at hm2
      simp at hm2
    obtain ⟨s2, hs2, _, _, hcl2, hcm2⟩ := cursorLineDown_good hg
    have hov : (L.matches_.length : Int) ≤ s.cursor_match_index + 1 := by
      omega
    refine ⟨s2, ?_, ?_, hcm2⟩
    · simp only [cursorMatchNext, hfl, hLmem, if_pos hov]
      exact hs2
    · rw [hcl2 [L] hfl, hcl]
      norm_num

/-- A line `"aa"` filtered with `"a"`: two single-character matches. -/
def demoLine2 : AerojumpLine :=
  { raw := ['a', 'a'], num := 1, matches_ := [[1], [2]], scores := [1, 1], filt_index := 0 }

/-- A state with one filtered line of two matches, cursor on match 1. -/
def demoTwoMatches : Aerojump :=
  { demoState with
    filter_string := ['a']
    lines := [demoLine2]
    filtered_lines := some [demoLine2]
    cursor_line_index := 0
    cursor_match_index := 1
    has_filter_results := true
    highlights := some [] }

/-- Witness for C5: overflow at the single-match line of `demoAfterA`,
and the wrap-around scenario at `demoTwoMatches`. -/
theorem C5_match_next_overflow_witness :
    cursorMatchNext demoAfterA = cursorLineDown demoAfterA ∧
    ∃ s2, cursorMatchNext demoTwoMatches = some s2 ∧
      s2.cursor_line_index = 0 ∧ s2.cursor_match_index = 0 :=
  ⟨C5_match_next_overflow.1 demoAfterA [demoLineA] demoLineA rfl
      (by decide) (by decide),
   C5_match_next_overflow.2 demoTwoMatches demoLine2 rfl rfl rfl (by decide)⟩

/-! ### Claim C4 -/

/-- The readable `'SearchHighlight'` (CursorSpan) entries are exactly the
spans of the match at the current `(cursor_line_index,
cursor_match_index)`. -/
def cursorSpansOk (s : Aerojump) : Prop :=
  ∃ hl fl L m, s.highlights = some hl ∧ s.filtered_lines = some fl ∧
    pyGet fl s.cursor_line_index = some L ∧
    pyGet L.matches_ s.cursor_match_index = some m ∧
    hl.filter (fun x => x.kind == HlKind.searchHighlight) =
      m.map (fun p =>
        Highlight.mk .searchHighlight (L.num - 1) ((p : Int) - 1) p)

theorem updateHighlights_spans {fl : List AerojumpLine} {cli cmi : Int}
    {hl : List Highlight} (h : updateHighlights fl cli cmi = some hl) :
    ∃ L m, pyGet fl cli = some L ∧ pyGet L.matches_ cmi = some m ∧
      hl.filter (fun x => x.kind == HlKind.searchHighlight) =
        m.map (fun p =>
          Highlight.mk .searchHighlight (L.num - 1) ((p : Int) - 1) p) := by
  simp only [updateHighlights] at h
  split at h
  · exact absurd h (by simp)
  case _ L hL =>
    split at h
    · exact absurd h (by simp)
    case _ m hm =>
      obtain rfl := Option.some.injEq .. ▸ h
      refine ⟨L, m, hL, hm, ?_⟩
      rw [List.filter_append]
      have h1 : (fl.flatMap fun l =>
          l.matches_.flatMap fun m0 =>
            m0.map fun i =>
              Highlight.mk .searchResult (l.num - 1) ((i : Int) - 1) i).filter
            (fun x => x.kind == HlKind.searchHighlight) = [] := by
        rw [List.filter_eq_nil_iff]
        intro a ha
        simp only [List.mem_flatMap, List.mem_map] at ha
        obtain ⟨l1, _, m1, _, i1, _, rfl⟩ := ha
        simp
      have h2 : (m.map fun p =>
          Highlight.mk .searchHighlight (L.num - 1) ((p : Int) - 1) p).filter
            (fun x => x.kind == HlKind.searchHighlight) =
          m.map fun p =>
            Highlight.mk .searchHighlight (L.num - 1) ((p : Int) - 1) p := by
        rw [List.filter_eq_self]
        intro a ha
        simp only [List.mem_map] at ha
        obtain ⟨p, _, rfl⟩ := ha
        simp
      rw [h1, h2, List.nil_append]

theorem cursorLineUp_spansOk {s s2 : Aerojump}
    (h : cursorLineUp s = some s2) : cursorSpansOk s2 := by
  simp only [cursorLineUp] at h
  split at h
  · exact absurd h (by simp)
  case _ fl hfl =>
    split at h
    · exact absurd h (by simp)
    case _ hl hhl =>
      obtain rfl := Option.some.injEq .. ▸ h
      obtain ⟨L, m, hL, hm, hspans⟩ := updateHighlights_spans hhl
      exact ⟨hl, fl, L, m, rfl, hfl, hL, hm, hspans⟩

theorem cursorLineDown_spansOk {s s2 : Aerojump}
    (h : cursorLineDown s = some s2) : cursorSpansOk s2 := by
  simp only [cursorLineDown] at h
  split at h
  · exact absurd h (by simp)
  case _ fl hfl =>
    split at h
    · exact absurd h (by simp)
    case _ hl hhl =>
      obtain rfl := Option.some.injEq .. ▸ h
      obtain ⟨L, m, hL, hm, hspans⟩ := updateHighlights_spans hhl
      exact ⟨hl, fl, L, m, rfl, hfl, hL, hm, hspans⟩

theorem cursorMatchNext_spansOk {s s2 : Aerojump}
    (h : cursorMatchNext s = some s2) : cursorSpansOk s2 := by
  simp only [cursorMatchNext] at h
  split at h
  · exact absurd h (by simp)
  case _ fl hfl =>
    split at h
    · exact absurd h (by simp)
    case _ L hL =>
      split at h
      · exact cursorLineDown_spansOk h
      · split at h
        · exact absurd h (by simp)
        case _ hl hhl =>
          obtain rfl := Option.some.injEq .. ▸ h
          obtain ⟨L2, m, hL2, hm, hspans⟩ := updateHighlights_spans hhl
          exact ⟨hl, fl, L2, m, rfl, hfl, hL2, hm, hspans⟩

theorem cursorMatchPrev_spansOk {s s2 : Aerojump}
    (hge : 1 ≤ s.cursor_match_index) (h : cursorMatchPrev s = some s2) :
    cursorSpansOk s2 := by
  simp only [cursorMatchPrev] at h
  rw [if_neg (by omega : ¬ s.cursor_match_index - 1 < 0)] at h
  split at h
  · exact absurd h (by simp)
  case _ fl hfl =>
    split at h
    · exact absurd h (by simp)
    case _ hl hhl =>
      obtain rfl := Option.some.injEq .. ▸ h
      obtain ⟨L, m, hL, hm, hspans⟩ := updateHighlights_spans hhl
      exact ⟨hl, fl, L, m, rfl, hfl, hL, hm, hspans⟩

theorem applyFilter_spansOk {s : Aerojump} {q : List Char} {s2 : Aerojump}
    (h : applyFilter s q = some s2) (hres : s2.has_filter_results = true) :
    cursorSpansOk s2 := by
  obtain ⟨_, hfl2, _, _, _, _, ha7, a8, _⟩ := applyFilter_fields s q s2 h
  have hpos : 0 < (getFilteredAux q s.lines 0).2.length := by
    rw [ha7] at hres
    simpa using hres
  obtain ⟨ci, _, hc1, hc2, hl, hhl, hh⟩ := a8 hpos
  obtain ⟨L, m, hL, hm, hspans⟩ := updateHighlights_spans hhl
  refine ⟨hl, _, L, m, hh, hfl2, ?_, ?_, hspans⟩
  · rw [hc1]
    exact hL
  · rw [hc2]
    exact hm

/-- The state reached from `demoTwoMatches` (match index 0) by one
`cursor_match_prev`: the match index wraps to the last match, but the
highlights were produced for match 0 by the embedded `cursor_line_up`. -/
def demoTwoAt0 : Aerojump := { demoTwoMatches with cursor_match_index := 0 }

/-- The resulting state: match index 1, CursorSpan still at column 0. -/
def c4bad : Aerojump :=
  { demoTwoMatches with
    highlights := some [⟨.searchResult, 0, 0, 1⟩, ⟨.searchResult, 0, 1, 2⟩,
      ⟨.searchHighlight, 0, 0, 1⟩] }

/-- C4 as stated is false: after `cursor_match_prev` underflows on a line
with two matches, the selected match is `[2]` (column 1) but the readable
CursorSpan is still the one of match `[1]` (column 0). -/
theorem C4_counterexample :
    cursorMatchPrev demoTwoAt0 = some c4bad ∧ ¬ cursorSpansOk c4bad := by
  constructor
  · decide
  · intro h
    obtain ⟨hl, fl, L, m, h1, h2, h3, h4, h5⟩ := h
    rw [show c4bad.highlights = some [⟨.searchResult, 0, 0, 1⟩,
      ⟨.searchResult, 0, 1, 2⟩, ⟨.searchHighlight, 0, 0, 1⟩] from rfl] at h1
    obtain rfl := Option.some.injEq .. ▸ h1
    rw [show c4bad.filtered_lines = some [demoLine2] from rfl] at h2
    obtain rfl := Option.some.injEq .. ▸ h2
    rw [show pyGet [demoLine2] c4bad.cursor_line_index = some demoLine2
      from by decide] at h3
    obtain rfl := Option.some.injEq .. ▸ h3
    rw [show pyGet demoLine2.matches_ c4bad.cursor_match_index = some [2]
      from by decide] at h4
    obtain rfl := Option.some.injEq .. ▸ h4
    exact absurd h5 (by decide)

/-- **C4 (amended)**: the CursorSpans correspond exactly to the match at
the current `(filterIndex, matchIndex)` after an `apply_filter` that
produced results, after `lineUp`, `lineDown` and `matchNext`, and after a
`matchPrev` whose match index was at least 1 beforehand; a `matchPrev`
that underflows refreshes the highlights for match 0 of the landing line
and only then moves the match index to that line's last match, so the
correspondence can fail there (see the counterexample). -/
theorem C4_amended (s s2 : Aerojump)
    (h : cursorLineUp s = some s2 ∨ cursorLineDown s = some s2 ∨
      cursorMatchNext s = some s2 ∨
      (1 ≤ s.cursor_match_index ∧ cursorMatchPrev s = some s2) ∨
      ∃ q, applyFilter s q = some s2 ∧ s2.has_filter_results = true) :
    cursorSpansOk s2 := by
  rcases h with h | h | h | ⟨hge, h⟩ | ⟨q, h, hres⟩
  · exact cursorLineUp_spansOk h
  · exact cursorLineDown_spansOk h
  · exact cursorMatchNext_spansOk h
  · exact cursorMatchPrev_spansOk hge h
  · exact applyFilter_spansOk h hres

/-- Witness for C4 (amended): `cursor_line_up` on `demoAfterA` recomputes
the same state, whose CursorSpans match the selected match. -/
theorem C4_amended_witness : cursorSpansOk demoAfterA :=
  C4_amended demoAfterA demoAfterA (Or.inl (by decide))

/-! ### Claim C3: best-match selection -/

theorem argmax_range (g : Nat → ℚ) : ∀ n : Nat, 0 < n →
    (List.range n).foldl (fun ret i => if g ret < g i then i else ret) 0 < n ∧
    (∀ i, i < n →
      g i ≤ g ((List.range n).foldl
        (fun ret i => if g ret < g i then i else ret) 0)) ∧
    ∀ i, i < (List.range n).foldl
        (fun ret i => if g ret < g i then i else ret) 0 →
      g i < g ((List.range n).foldl
        (fun ret i => if g ret < g i then i else ret) 0) := by
  intro n
  induction n with
  | zero => intro h; exact absurd h (by omega)
  | succ n ih =>
    intro _
    rw [List.range_succ, List.foldl_append]
    simp only [List.foldl_cons, List.foldl_nil]
    by_cases h0 : n = 0
    · subst h0
      simp only [List.range_zero, List.foldl_nil]
      rw [if_neg (lt_irrefl _)]
      refine ⟨by omega, ?_, by omega⟩
      intro i hi
      have : i = 0 := by omega
      subst this
      exact le_rfl
    · obtain ⟨h1, h2, h3⟩ := ih (by omega)
      by_cases hlt :
          g ((List.range n).foldl
            (fun ret i => if g ret < g i then i else ret) 0) < g n
      · rw [if_pos hlt]
        refine ⟨by omega, ?_, ?_⟩
        · intro i hi
          by_cases hin : i = n
          · subst hin
            exact le_rfl
          · exact le_of_lt (lt_of_le_of_lt (h2 i (by omega)) hlt)
        · intro i hi
          exact lt_of_le_of_lt (h2 i hi) hlt
      · rw [if_neg hlt]
        refine ⟨by omega, ?_, h3⟩
        intro i hi
        by_cases hin : i = n
        · subst hin
          exact le_of_not_lt hlt
        · exact h2 i (by omega)

/-- `__best_match_index_for` returns the lowest index of a maximal-score
match. -/
theorem bestMatchIndexFor_spec (l : AerojumpLine) (h : l.matches_ ≠ []) :
    bestMatchIndexFor l < l.matches_.length ∧
    (∀ i, i < l.matches_.length →
      l.scores.getD i 0 ≤ l.scores.getD (bestMatchIndexFor l) 0) ∧
    ∀ i, i < bestMatchIndexFor l →
      l.scores.getD i 0 < l.scores.getD (bestMatchIndexFor l) 0 := by
  have hn : 0 < l.matches_.length := List.length_pos.mpr h
  exact argmax_range (fun i => l.scores.getD i 0) l.matches_.length hn

/-- The best score of a line (the score at its best-match index). -/
def keyF (l : AerojumpLine) : ℚ := l.scores.getD (bestMatchIndexFor l) 0

/-- Distance between a line and the original cursor line. -/
def keyD (og : Int) (l : AerojumpLine) : Nat := (og - l.num).natAbs

/-- `a` ranks strictly below `b` for the selection policy (lower best
score, or equal best score and strictly larger distance). -/
def keyLt (og : Int) (a b : AerojumpLine) : Prop :=
  keyF a < keyF b ∨ (keyF a = keyF b ∧ keyD og b < keyD og a)

/-- `a` ranks at most as high as `b` for the selection policy. -/
def keyLe (og : Int) (a b : AerojumpLine) : Prop :=
  keyF a < keyF b ∨ (keyF a = keyF b ∧ keyD og b ≤ keyD og a)

theorem keyLe_refl (og : Int) (a : AerojumpLine) : keyLe og a a :=
  Or.inr ⟨rfl, le_rfl⟩

theorem keyLe_of_keyLt {og : Int} {a b : AerojumpLine}
    (h : keyLt og a b) : keyLe og a b := by
  rcases h with h | ⟨h1, h2⟩
  · exact Or.inl h
  · exact Or.inr ⟨h1, le_of_lt h2⟩

theorem keyLe_trans {og : Int} {a b c : AerojumpLine}
    (h1 : keyLe og a b) (h2 : keyLe og b c) : keyLe og a c := by
  rcases h1 with h1 | ⟨h1a, h1b⟩ <;> rcases h2 with h2 | ⟨h2a, h2b⟩
  · exact Or.inl (lt_trans h1 h2)
  · exact Or.inl (h2a ▸ h1)
  · exact Or.inl (h1a ▸ h2)
  · exact Or.inr ⟨h1a.trans h2a, le_trans h2b h1b⟩

theorem keyLt_of_keyLt_of_keyLe {og : Int} {a b c : AerojumpLine}
    (h1 : keyLt og a b) (h2 : keyLe og b c) : keyLt og a c := by
  rcases h1 with h1 | ⟨h1a, h1b⟩ <;> rcases h2 with h2 | ⟨h2a, h2b⟩
  · exact Or.inl (lt_trans h1 h2)
  · exact Or.inl (h2a ▸ h1)
  · exact Or.inl (h1a ▸ h2)
  · exact Or.inr ⟨h1a.trans h2a, by omega⟩

theorem keyLt_of_keyLe_of_keyLt {og : Int} {a b c : AerojumpLine}
    (h1 : keyLe og a b) (h2 : keyLt og b c) : keyLt og a c := by
  rcases h1 with h1 | ⟨h1a, h1b⟩ <;> rcases h2 with h2 | ⟨h2a, h2b⟩
  · exact Or.inl (lt_trans h1 h2)
  · exact Or.inl (h2a ▸ h1)
  · exact Or.inl (h1a ▸ h2)
  · exact Or.inr ⟨h1a.trans h2a, by omega⟩

/-- The replacement test of `__best_cursor_in` is exactly `keyLt og b l`
(`b` the current best, `l` the scanned line). -/
theorem bestCursorStep_cond_iff (og : Int) (b l : AerojumpLine) :
    (b.scores.getD (bestMatchIndexFor b) 0 <
        l.scores.getD (bestMatchIndexFor l) 0 ∨
      (l.scores.getD (bestMatchIndexFor l) 0 =
          b.scores.getD (bestMatchIndexFor b) 0 ∧
        (og - l.num).natAbs < (og - b.num).natAbs)) ↔ keyLt og b l := by
  rw [keyLt, keyF, keyF, keyD, keyD]
  constructor
  · rintro (h | ⟨h1, h2⟩)
    · exact Or.inl h
    · exact Or.inr ⟨h1.symm, h2⟩
  · rintro (h | ⟨h1, h2⟩)
    · exact Or.inl h
    · exact Or.inr ⟨h1.symm, h2⟩

theorem keyLe_of_not_cond {og : Int} {b l : AerojumpLine}
    (h : ¬ (b.scores.getD (bestMatchIndexFor b) 0 <
        l.scores.getD (bestMatchIndexFor l) 0 ∨
      (l.scores.getD (bestMatchIndexFor l) 0 =
          b.scores.getD (bestMatchIndexFor b) 0 ∧
        (og - l.num).natAbs < (og - b.num).natAbs))) : keyLe og l b := by
  push_neg at h
  obtain ⟨h1, h2⟩ := h
  rw [keyLe, keyF, keyF, keyD, keyD]
  rcases lt_trichotomy (l.scores.getD (bestMatchIndexFor l) 0)
      (b.scores.getD (bestMatchIndexFor b) 0) with hc | hc | hc
  · exact Or.inl hc
  · exact Or.inr ⟨hc, h2 hc⟩
  · exact absurd hc (not_lt.mpr h1)

/-- Characterization of the `for l in lines` scan of `__best_cursor_in`:
the final best is the FIRST line attaining the policy maximum. -/
theorem bestCursor_fold_spec (og : Int) :
    ∀ (ls : List AerojumpLine) (b : AerojumpLine),
    ∃ r : AerojumpLine,
      ls.foldl (bestCursorStep og) (b, bestMatchIndexFor b) =
        (r, bestMatchIndexFor r) ∧
      (r = b ∨ r ∈ ls) ∧
      (∀ l ∈ b :: ls, keyLe og l r) ∧
      (r = b ∨ ∃ pre post, ls = pre ++ r :: post ∧ keyLt og b r ∧
        ∀ l ∈ pre, keyLt og l r) := by
  intro ls
  induction ls with
  | nil =>
    intro b
    refine ⟨b, rfl, Or.inl rfl, ?_, Or.inl rfl⟩
    intro x hx
    obtain rfl : x = b := by simpa using hx
    exact keyLe_refl og _
  | cons l t ih =>
    intro b
    rw [List.foldl_cons]
    by_cases hC : b.scores.getD (bestMatchIndexFor b) 0 <
        l.scores.getD (bestMatchIndexFor l) 0 ∨
      (l.scores.getD (bestMatchIndexFor l) 0 =
          b.scores.getD (bestMatchIndexFor b) 0 ∧
        (og - l.num).natAbs < (og - b.num).natAbs)
    · have hstep : bestCursorStep og (b, bestMatchIndexFor b) l =
          (l, bestMatchIndexFor l) := by
        simp only [bestCursorStep]
        rw [if_pos hC]
      rw [hstep]
      obtain ⟨r, hfold, hmem, hle, hpos⟩ := ih l
      have hbl : keyLt og b l := (bestCursorStep_cond_iff og b l).mp hC
      refine ⟨r, hfold, ?_, ?_, ?_⟩
      · rcases hmem with rfl | hm
        · exact Or.inr (List.mem_cons_self _ _)
        · exact Or.inr (List.mem_cons_of_mem _ hm)
      · intro x hx
        rcases List.mem_cons.mp hx with rfl | hx
        · exact keyLe_trans (keyLe_of_keyLt hbl)
            (hle l (List.mem_cons_self _ _))
        · exact hle x hx
      · rcases hpos with rfl | ⟨pre, post, ht, hlr, hpre⟩
        · exact Or.inr ⟨[], t, rfl, hbl, by simp⟩
        · refine Or.inr ⟨l :: pre, post, by simp [ht], ?_, ?_⟩
          · exact keyLt_of_keyLe_of_keyLt (keyLe_of_keyLt hbl) hlr
          · intro x hx
            rcases List.mem_cons.mp hx with rfl | hx
            · exact hlr
            · exact hpre x hx
    · have hstep : bestCursorStep og (b, bestMatchIndexFor b) l =
          (b, bestMatchIndexFor b) := by
        simp only [bestCursorStep]
        rw [if_neg hC]
      rw [hstep]
      obtain ⟨r, hfold, hmem, hle, hpos⟩ := ih b
      have hlb : keyLe og l b := keyLe_of_not_cond hC
      refine ⟨r, hfold, ?_, ?_, ?_⟩
      · rcases hmem with rfl | hm
        · exact Or.inl rfl
        · exact Or.inr (List.mem_cons_of_mem _ hm)
      · intro x hx
        rcases List.mem_cons.mp hx with rfl | hx
        · exact hle x (List.mem_cons_self _ _)
        · rcases List.mem_cons.mp hx with rfl | hx2
          · exact keyLe_trans hlb (hle b (List.mem_cons_self _ _))
          · exact hle x (List.mem_cons_of_mem _ hx2)
      · rcases hpos with rfl | ⟨pre, post, ht, hbr, hpre⟩
        · exact Or.inl rfl
        · refine Or.inr ⟨l :: pre, post, by simp [ht], hbr, ?_⟩
          intro x hx
          rcases List.mem_cons.mp hx with rfl | hx
          · exact keyLt_of_keyLe_of_keyLt hlb hbr
          · exact hpre x hx

/-- `__best_cursor_in` returns the filt-index and best-match index of the
first line attaining the policy maximum (highest best score, ties broken
by smaller distance to the original cursor line, then iteration order). -/
theorem bestCursorIn_spec (og : Int) (ls : List AerojumpLine)
    (hne : ls ≠ []) :
    ∃ (r : AerojumpLine) (k : Nat),
      bestCursorIn og ls = some (r.filt_index, bestMatchIndexFor r) ∧
      ls[k]? = some r ∧
      (∀ l ∈ ls, keyLe og l r) ∧
      ∀ j, j < k → ∀ x, ls[j]? = some x → keyLt og x r := by
  obtain ⟨l0, t, rfl⟩ := List.exists_cons_of_ne_nil hne
  have hfirst : bestCursorStep og (l0, bestMatchIndexFor l0) l0 =
      (l0, bestMatchIndexFor l0) := by
    simp only [bestCursorStep]
    rw [if_neg]
    rintro (h | ⟨h1, h2⟩)
    · exact lt_irrefl _ h
    · exact lt_irrefl _ h2
  obtain ⟨r, hfold, hmem, hle, hpos⟩ := bestCursor_fold_spec og t l0
  rcases hpos with rfl | ⟨pre, post, ht, hl0r, hpre⟩
  · refine ⟨r, 0, ?_, List.getElem?_cons_zero, hle, ?_⟩
    · simp only [bestCursorIn, List.foldl_cons, hfirst, hfold]
    · intro j hj
      exact absurd hj (by omega)
  · refine ⟨r, pre.length + 1, ?_, ?_, hle, ?_⟩
    · simp only [bestCursorIn, List.foldl_cons, hfirst, hfold]
    · rw [ht, List.getElem?_cons_succ,
        List.getElem?_append_right (le_refl pre.length)]
      simp
    · intro j hj x hx
      cases j with
      | zero =>
        obtain rfl : l0 = x := by simpa using hx
        exact hl0r
      | succ j =>
        rw [ht, List.getElem?_cons_succ,
          List.getElem?_append_left (by omega : j < pre.length)] at hx
        exact hpre x (List.getElem?_mem hx)

/-- Filtered lines carry dense `filt_index` values, non-empty match lists
and fresh scores. -/
theorem getFilteredAux_spec (q : List Char) (hq : q ≠ []) :
    ∀ (ls : List AerojumpLine) (fi k : Nat) (L : AerojumpLine),
      ((getFilteredAux q ls fi).2)[k]? = some L →
      L.filt_index = fi + k ∧ L.matches_ ≠ [] ∧
      L.scores = L.matches_.map (fun m => scoreOf m q.length) := by
  intro ls
  induction ls with
  | nil =>
    intro fi k L h
    simp [getFilteredAux] at h
  | cons l rest ih =>
    intro fi k L h
    simp only [getFilteredAux] at h
    by_cases hm : (l.filter q).matches_ = []
    · rw [if_pos hm] at h
      exact ih fi k L h
    · rw [if_neg hm] at h
      cases k with
      | zero =>
        have h2 : ({ l.filter q with filt_index := fi } ::
            (getFilteredAux q rest (fi + 1)).2)[0]? = some L := h
        rw [List.getElem?_cons_zero, Option.some.injEq] at h2
        subst h2
        refine ⟨by simp, hm, ?_⟩
        show (l.filter q).scores = (l.filter q).matches_.map _
        rw [AerojumpLine.filter, if_neg hq]
      | succ k =>
        have h2 : ((getFilteredAux q rest (fi + 1)).2)[k]? = some L := by
          simpa using h
        obtain ⟨h1, h3, h4⟩ := ih (fi + 1) k L h2
        exact ⟨by omega, h3, h4⟩

/-- **C3**: when `apply_filter` yields a non-empty filtered set, the
initial cursor is chosen by restricting to the filtered lines inside the
visible range `[top, top + height]` when that set is non-empty (else all
filtered lines); per line the lowest index among its maximal-score matches
is taken; and among candidate lines the one whose best match has the
highest score wins, ties broken by smaller absolute distance to the
original cursor line, any remaining tie keeping the first line in
iteration order. -/
theorem C3_initial_selection (s : Aerojump) (q : List Char) (s2 : Aerojump)
    (h : applyFilter s q = some s2) (fl : List AerojumpLine)
    (hfl : s2.filtered_lines = some fl) (hne : fl ≠ []) :
    ∃ (cand : List AerojumpLine) (r : AerojumpLine) (k : Nat),
      cand = (if fl.filter (fun l => s.og_top_line.1 ≤ l.num ∧
          l.num ≤ s.og_top_line.1 + s.num_lines) = [] then fl
        else fl.filter (fun l => s.og_top_line.1 ≤ l.num ∧
          l.num ≤ s.og_top_line.1 + s.num_lines)) ∧
      cand[k]? = some r ∧
      s2.cursor_line_index = (r.filt_index : Int) ∧
      s2.cursor_match_index = (bestMatchIndexFor r : Int) ∧
      fl[r.filt_index]? = some r ∧
      (bestMatchIndexFor r < r.matches_.length ∧
        (∀ i, i < r.matches_.length →
          r.scores.getD i 0 ≤ r.scores.getD (bestMatchIndexFor r) 0) ∧
        ∀ i, i < bestMatchIndexFor r →
          r.scores.getD i 0 < r.scores.getD (bestMatchIndexFor r) 0) ∧
      (∀ l ∈ cand, keyLe s.og_cursor_pos.1 l r) ∧
      ∀ j, j < k → ∀ x, cand[j]? = some x →
        keyLt s.og_cursor_pos.1 x r := by
  obtain ⟨a1, a2, a3, a4, a5, a6, a7, a8, a9⟩ := applyFilter_fields s q s2 h
  rw [a2] at hfl
  obtain rfl := Option.some.injEq .. ▸ hfl
  have hq : q ≠ [] := by
    intro hq0
    subst hq0
    rw [(getFilteredAux_nil_pattern s.lines 0).1] at hne
    exact hne rfl
  have hpos : 0 < (getFilteredAux q s.lines 0).2.length :=
    List.length_pos.mpr hne
  obtain ⟨ci, hci, hc1, hc2, hl, hhl, hh⟩ := a8 hpos
  simp only [selectInitial] at hci
  by_cases hv : (getFilteredAux q s.lines 0).2.filter
      (fun l => s.og_top_line.1 ≤ l.num ∧
        l.num ≤ s.og_top_line.1 + s.num_lines) = []
  · rw [if_pos hv] at hci
    obtain ⟨r, k, hbc, hk, hle, hlt⟩ :=
      bestCursorIn_spec s.og_cursor_pos.1 (getFilteredAux q s.lines 0).2 hne
    rw [hbc] at hci
    obtain rfl := Option.some.injEq .. ▸ hci
    obtain ⟨hfi, hmne, hsc⟩ := getFilteredAux_spec q hq s.lines 0 k r hk
    obtain ⟨hb1, hb2, hb3⟩ := bestMatchIndexFor_spec r hmne
    refine ⟨_, r, k, (if_pos hv).symm, hk, hc1, hc2, ?_, ⟨hb1, hb2, hb3⟩,
      hle, hlt⟩
    rw [hfi]
    simpa using hk
  · rw [if_neg hv] at hci
    obtain ⟨r, k, hbc, hk, hle, hlt⟩ :=
      bestCursorIn_spec s.og_cursor_pos.1 _ hv
    rw [hbc] at hci
    obtain rfl := Option.some.injEq .. ▸ hci
    have hrfl : r ∈ (getFilteredAux q s.lines 0).2 :=
      (List.mem_filter.mp (List.getElem?_mem hk)).1
    obtain ⟨k0, hk0⟩ := List.getElem?_of_mem hrfl
    obtain ⟨hfi, hmne, hsc⟩ := getFilteredAux_spec q hq s.lines 0 k0 r hk0
    obtain ⟨hb1, hb2, hb3⟩ := bestMatchIndexFor_spec r hmne
    refine ⟨_, r, k, (if_neg hv).symm, hk, hc1, hc2, ?_, ⟨hb1, hb2, hb3⟩,
      hle, hlt⟩
    rw [hfi]
    simpa using hk0

/-- Witness for C3: `applyFilter demoState "a"` selects the unique
filtered line and its first maximal-score match. -/
theorem C3_initial_selection_witness :
    ∃ (cand : List AerojumpLine) (r : AerojumpLine) (k : Nat),
      cand = (if ([demoLineA] : List AerojumpLine).filter (fun l =>
          demoState.og_top_line.1 ≤ l.num ∧
          l.num ≤ demoState.og_top_line.1 + demoState.num_lines) = []
        then [demoLineA]
        else ([demoLineA] : List AerojumpLine).filter (fun l =>
          demoState.og_top_line.1 ≤ l.num ∧
          l.num ≤ demoState.og_top_line.1 + demoState.num_lines)) ∧
      cand[k]? = some r ∧
      demoAfterA.cursor_line_index = (r.filt_index : Int) ∧
      demoAfterA.cursor_match_index = (bestMatchIndexFor r : Int) ∧
      ([demoLineA] : List AerojumpLine)[r.filt_index]? = some r ∧
      (bestMatchIndexFor r < r.matches_.length ∧
        (∀ i, i < r.matches_.length →
          r.scores.getD i 0 ≤ r.scores.getD (bestMatchIndexFor r) 0) ∧
        ∀ i, i < bestMatchIndexFor r →
          r.scores.getD i 0 < r.scores.getD (bestMatchIndexFor r) 0) ∧
      (∀ l ∈ cand, keyLe demoState.og_cursor_pos.1 l r) ∧
      ∀ j, j < k → ∀ x, cand[j]? = some x →
        keyLt demoState.og_cursor_pos.1 x r :=
  C3_initial_selection demoState ['a'] demoAfterA (by decide) [demoLineA]
    (by decide) (by decide)

end AJ
